import Mathlib

/-!
Verification of the Hypr-Vimx repository against its specification.

The Rust sources are shallowly embedded: pure functions become Lean
functions, the stateful traversal loops become explicit state passing
with fuel, machine integers become `Nat`/`Int` (with explicit
wrap-around where the source can overflow), and fallible calls become
`Option`/`Except` values or boolean-valued oracles.
-/

namespace HyprVimx

/-! ## Label assigner (src/hints.rs) -/

/-- A discovered clickable rectangle, `Child` in src/hints.rs (fields
`absolute_x`, `absolute_y`, `width`, `height`, all `i32`). -/
structure Child where
  absolute_x : Int
  absolute_y : Int
  width : Int
  height : Int
deriving DecidableEq

/-- One `HashMap::insert` on the hint map: if the key is already
present its value is replaced, otherwise the pair is appended.  The
map is represented as an association list with pairwise distinct
keys. -/
def insertHint (m : List (String × Child)) (k : String) (v : Child) :
    List (String × Child) :=
  if m.any (fun p => p.1 == k) then
    m.map (fun p => if p.1 == k then (k, v) else p)
  else m ++ [(k, v)]

/-- The digit-extraction loop inside `generate_hints`
(src/hints.rs lines 26-31): `needed` iterations of
`digit = n % radix; label_chars.push(base[digit]); n /= radix`.
Returns the pushed characters (least-significant digit first, in push
order) together with the final value of `n`. -/
def extractDigits (base : List Char) (radix : Nat) : Nat → Nat → List Char × Nat
  | 0, n => ([], n)
  | needed + 1, n =>
    let rest := extractDigits base radix needed (n / radix)
    (base.getD (n % radix) 'a' :: rest.1, rest.2)

/-- The label built for index `idx` by the loop body of
`generate_hints` (src/hints.rs lines 24-36): `needed` extracted
digits, one extra digit pushed when the residue `n` is still positive
(src/hints.rs lines 32-34), then the whole vector reversed so the
most-significant digit comes first. -/
def labelChars (base : List Char) (radix needed idx : Nat) : List Char :=
  (if (extractDigits base radix needed idx).2 > 0 then
      (extractDigits base radix needed idx).1 ++
        [base.getD ((extractDigits base radix needed idx).2 % radix) 'a']
    else (extractDigits base radix needed idx).1).reverse

/-- The label string `generate_hints` computes for index `idx` with
label width `needed` over `alphabet` (the `label` string of
src/hints.rs line 36, with `radix = alphabet.len()` inlined). -/
def hintLabel (alphabet : List Char) (needed idx : Nat) : String :=
  String.mk (labelChars alphabet alphabet.length needed idx)

/-- `generate_hints` (src/hints.rs lines 14-41): empty input or an
empty alphabet yields the empty map; otherwise every `(idx, child)` of
`children.iter().enumerate()` is inserted under its base-`radix`
label.  `needed` is the value of src/hints.rs line 21,
`(children.len() as f64).log(radix as f64).ceil() as u32`, supplied
here as an input: the platform-libm `f64` logarithm is not shallowly
embeddable.  On realizable inputs it never undercounts the exact
ceiling logarithm — `children.length ≤ radix ^ needed`, the
hypothesis of the theorems below — but can exceed it at
float-rounding boundaries (125 targets over a 5-character alphabet
give `needed = 4` where `⌈log₅ 125⌉ = 3`), and it is exactly 0 for a
single target, since `ln 1 = 0` exactly in every IEEE
implementation. -/
def generate_hints (children : List Child) (alphabet : List Char)
    (needed : Nat) : List (String × Child) :=
  if children.isEmpty || alphabet.isEmpty then []
  else
    children.enum.foldl
      (fun m ic => insertHint m (hintLabel alphabet needed ic.1) ic.2)
      []

/-- Decoding of a label as described by the specification: read each
character as its index in the alphabet, most-significant digit
first. -/
def decodeLabel (alphabet : List Char) (s : String) : Nat :=
  s.data.foldl (fun acc c => acc * alphabet.length + alphabet.indexOf c) 0

/-- `a` is a strict (proper) prefix of `b`: the strings differ and
appending some suffix to `a` gives `b`. -/
def strictPre (a b : String) : Prop :=
  a ≠ b ∧ ∃ t, a.data ++ t = b.data

/-! ### Arithmetic facts about the embedded label encoder -/

theorem extractDigits_fst_length (base : List Char) (radix : Nat) :
    ∀ k n, ((extractDigits base radix k n).1).length = k := by
  intro k
  induction k with
  | zero => intro n; rfl
  | succ k ih => intro n; simp [extractDigits, ih]

theorem extractDigits_snd (base : List Char) (radix : Nat) :
    ∀ k n, (extractDigits base radix k n).2 = n / radix ^ k := by
  intro k
  induction k with
  | zero => intro n; simp [extractDigits]
  | succ k ih =>
    intro n
    simp only [extractDigits, ih, Nat.div_div_eq_div_mul, pow_succ']

theorem decode_foldl_extract (alphabet : List Char)
    (hnd : alphabet.Nodup) (hpos : 0 < alphabet.length) :
    ∀ k n z,
      List.foldl (fun acc c => acc * alphabet.length + alphabet.indexOf c) z
          ((extractDigits alphabet alphabet.length k n).1.reverse)
        = z * alphabet.length ^ k + n % alphabet.length ^ k := by
  intro k
  induction k with
  | zero => intro n z; simp [extractDigits, Nat.mod_one]
  | succ k ih =>
    intro n z
    have hmod : n % alphabet.length < alphabet.length := Nat.mod_lt n hpos
    have hgetD :
        alphabet.getD (n % alphabet.length) 'a' = alphabet[n % alphabet.length] :=
      List.getD_eq_getElem alphabet 'a' hmod
    have hidx :
        alphabet.indexOf (alphabet.getD (n % alphabet.length) 'a') =
          n % alphabet.length := by
      rw [hgetD]; exact List.indexOf_getElem hnd _ hmod
    have hsplit : n % alphabet.length ^ (k + 1) =
        n % alphabet.length +
          alphabet.length * (n / alphabet.length % alphabet.length ^ k) := by
      rw [pow_succ']; exact Nat.mod_mul
    simp only [extractDigits, List.reverse_cons, List.foldl_concat, ih, hidx]
    rw [hsplit, pow_succ']
    ring

theorem labelChars_of_lt (alphabet : List Char) (needed idx : Nat)
    (h : idx < alphabet.length ^ needed) :
    labelChars alphabet alphabet.length needed idx =
      ((extractDigits alphabet alphabet.length needed idx).1).reverse := by
  unfold labelChars
  rw [extractDigits_snd, Nat.div_eq_of_lt h]
  simp

theorem labelChars_length (alphabet : List Char) (needed idx : Nat)
    (h : idx < alphabet.length ^ needed) :
    (labelChars alphabet alphabet.length needed idx).length = needed := by
  rw [labelChars_of_lt alphabet needed idx h]
  simp [extractDigits_fst_length]

theorem decode_labelChars (alphabet : List Char)
    (hnd : alphabet.Nodup) (hpos : 0 < alphabet.length)
    (needed idx : Nat) (h : idx < alphabet.length ^ needed) :
    decodeLabel alphabet (String.mk (labelChars alphabet alphabet.length needed idx))
      = idx := by
  unfold decodeLabel
  rw [labelChars_of_lt alphabet needed idx h]
  show List.foldl _ 0 _ = idx
  rw [decode_foldl_extract alphabet hnd hpos needed idx 0,
    Nat.mod_eq_of_lt h]
  simp

/-! ### Structure of the generated hint map -/

theorem insertHint_fresh (m : List (String × Child)) (k : String) (v : Child)
    (h : ∀ p ∈ m, p.1 ≠ k) : insertHint m k v = m ++ [(k, v)] := by
  have hany : m.any (fun p => p.1 == k) = false := by
    rw [List.any_eq_false]
    intro p hp
    simp only [beq_iff_eq]
    exact h p hp
  rw [insertHint, hany]
  simp

theorem foldl_insertHint_eq (f : Nat → String) :
    ∀ (l : List (Nat × Child)) (acc : List (String × Child)),
      ((acc.map Prod.fst) ++ l.map (fun ic => f ic.1)).Nodup →
      l.foldl (fun m ic => insertHint m (f ic.1) ic.2) acc =
        acc ++ l.map (fun ic => (f ic.1, ic.2)) := by
  intro l
  induction l with
  | nil => intro acc _; simp
  | cons ic t ih =>
    intro acc hnd
    have hsplit :
        (acc.map Prod.fst) ++ (ic :: t).map (fun jc => f jc.1) =
          ((acc.map Prod.fst) ++ [f ic.1]) ++ t.map (fun jc => f jc.1) := by
      simp
    rw [hsplit] at hnd
    have hfresh : ∀ p ∈ acc, p.1 ≠ f ic.1 := by
      intro p hp he
      have hnd' : (acc.map Prod.fst ++ [f ic.1]).Nodup :=
        hnd.sublist (List.sublist_append_left _ _)
      rw [List.nodup_append] at hnd'
      exact hnd'.2.2 (he ▸ List.mem_map_of_mem Prod.fst hp) (by simp)
    have hstep :
        insertHint acc (f ic.1) ic.2 = acc ++ [(f ic.1, ic.2)] :=
      insertHint_fresh acc (f ic.1) ic.2 hfresh
    have hacc' :
        ((acc ++ [(f ic.1, ic.2)]).map Prod.fst) ++ t.map (fun jc => f jc.1) =
          ((acc.map Prod.fst) ++ [f ic.1]) ++ t.map (fun jc => f jc.1) := by
      simp
    simp only [List.foldl_cons]
    rw [hstep, ih _ (by rw [hacc']; exact hnd)]
    simp

theorem enum_map_label {β : Type} (children : List Child) (f : Nat → β) :
    children.enum.map (fun ic => f ic.1) =
      (List.range children.length).map f := by
  rw [show (fun ic : Nat × Child => f ic.1) = f ∘ Prod.fst from rfl,
    ← List.map_map, List.enum_map_fst]

theorem generate_hints_eq_map (children : List Child) (alphabet : List Char)
    (needed : Nat) (hch : children ≠ []) (hal : alphabet ≠ [])
    (hnd : ((List.range children.length).map
      (hintLabel alphabet needed)).Nodup) :
    generate_hints children alphabet needed =
      children.enum.map (fun ic =>
        (hintLabel alphabet needed ic.1, ic.2)) := by
  unfold generate_hints
  rw [if_neg (by simp [hch, hal])]
  refine foldl_insertHint_eq (hintLabel alphabet needed) children.enum [] ?_
  simpa [enum_map_label children (hintLabel alphabet needed)] using hnd

theorem hintLabel_length (alphabet : List Char) (needed idx : Nat)
    (h : idx < alphabet.length ^ needed) :
    (hintLabel alphabet needed idx).length = needed := by
  show (labelChars alphabet alphabet.length needed idx).length = _
  exact labelChars_length alphabet needed idx h

theorem decode_hintLabel (alphabet : List Char) (hnd : alphabet.Nodup)
    (hpos : 0 < alphabet.length) (needed idx : Nat)
    (h : idx < alphabet.length ^ needed) :
    decodeLabel alphabet (hintLabel alphabet needed idx) = idx :=
  decode_labelChars alphabet hnd hpos needed idx h

theorem hintLabel_nodup (alphabet : List Char) (hnd : alphabet.Nodup)
    (hpos : 0 < alphabet.length) (needed n : Nat)
    (hw : n ≤ alphabet.length ^ needed) :
    ((List.range n).map (hintLabel alphabet needed)).Nodup := by
  refine List.Nodup.map_on ?_ (List.nodup_range n)
  intro x hx y hy hxy
  rw [List.mem_range] at hx hy
  have hdec := congrArg (decodeLabel alphabet) hxy
  rwa [decode_hintLabel alphabet hnd hpos needed x (lt_of_lt_of_le hx hw),
    decode_hintLabel alphabet hnd hpos needed y (lt_of_lt_of_le hy hw)] at hdec

theorem generate_hints_keys (children : List Child) (alphabet : List Char)
    (needed : Nat) (hch : children ≠ []) (hal : alphabet ≠ [])
    (hnd : ((List.range children.length).map
      (hintLabel alphabet needed)).Nodup) :
    (generate_hints children alphabet needed).map Prod.fst =
      (List.range children.length).map (hintLabel alphabet needed) := by
  rw [generate_hints_eq_map children alphabet needed hch hal hnd, List.map_map]
  exact enum_map_label children (hintLabel alphabet needed)

/-- **C1** (amended).  For `N ≥ 1` targets and an alphabet of `R ≥ 2`
distinct characters, `generate_hints` returns a map with exactly `N`
entries, the `N` keys are distinct, every key has the same length
`w = needed` — the width the `f64` ceil-log pipeline computes, which
on realizable inputs satisfies `N ≤ R ^ needed` (never below
`⌈log_R N⌉`, but possibly above it at float-rounding boundaries, and
0 for `N = 1`, not the claimed `max(1, ⌈log_R N⌉)`) — and decoding
each key base-`R` (most-significant digit first, digit = index in the
alphabet) yields a permutation of `0..N-1`. -/
theorem C1_label_bijection_amended
    (children : List Child) (alphabet : List Char) (needed : Nat)
    (hch : children ≠ []) (hR : 2 ≤ alphabet.length) (hnd : alphabet.Nodup)
    (hw : children.length ≤ alphabet.length ^ needed) :
    (generate_hints children alphabet needed).length = children.length ∧
    ((generate_hints children alphabet needed).map Prod.fst).Nodup ∧
    (∀ k ∈ (generate_hints children alphabet needed).map Prod.fst,
        k.length = needed) ∧
    ((generate_hints children alphabet needed).map
        (fun p => decodeLabel alphabet p.1)).Perm (List.range children.length) := by
  have hal : alphabet ≠ [] := by
    intro h; rw [h] at hR; simp at hR
  have hpos : 0 < alphabet.length := by omega
  have hnl := hintLabel_nodup alphabet hnd hpos needed children.length hw
  have hkeys := generate_hints_keys children alphabet needed hch hal hnl
  have hmap := generate_hints_eq_map children alphabet needed hch hal hnl
  refine ⟨?_, ?_, ?_, ?_⟩
  · rw [hmap]; simp
  · rw [hkeys]; exact hnl
  · intro k hk
    rw [hkeys] at hk
    obtain ⟨i, hi, rfl⟩ := List.mem_map.1 hk
    rw [List.mem_range] at hi
    exact hintLabel_length alphabet needed i (lt_of_lt_of_le hi hw)
  · rw [hmap, List.map_map]
    rw [show ((fun p : String × Child => decodeLabel alphabet p.1) ∘
        (fun ic : Nat × Child => (hintLabel alphabet needed ic.1, ic.2))) =
        (fun ic : Nat × Child =>
          decodeLabel alphabet (hintLabel alphabet needed ic.1)) from rfl]
    rw [enum_map_label children
      (fun i => decodeLabel alphabet (hintLabel alphabet needed i))]
    have hid : (List.range children.length).map
        (fun i => decodeLabel alphabet (hintLabel alphabet needed i)) =
        (List.range children.length).map id := by
      rw [List.map_eq_map_iff]
      intro i hi
      rw [List.mem_range] at hi
      exact decode_hintLabel alphabet hnd hpos needed i (lt_of_lt_of_le hi hw)
    rw [hid, List.map_id]

/-- Concrete three-target input used by the witnesses (the
specification's own end-to-end scenario). -/
def sampleChildren : List Child :=
  [⟨0, 0, 10, 10⟩, ⟨50, 50, 10, 10⟩, ⟨100, 100, 10, 10⟩]

/-- Witness for C1 at the specification's end-to-end scenario: three
targets, alphabet `"ab"`, where the `f64` pipeline computes
`needed = ceil(log_2 3) = 2`. -/
theorem C1_label_bijection_witness :
    (generate_hints sampleChildren ['a', 'b'] 2).length = sampleChildren.length ∧
    ((generate_hints sampleChildren ['a', 'b'] 2).map Prod.fst).Nodup ∧
    (∀ k ∈ (generate_hints sampleChildren ['a', 'b'] 2).map Prod.fst,
        k.length = 2) ∧
    ((generate_hints sampleChildren ['a', 'b'] 2).map
        (fun p => decodeLabel ['a', 'b'] p.1)).Perm
      (List.range sampleChildren.length) :=
  C1_label_bijection_amended sampleChildren ['a', 'b'] 2
    (by decide) (by decide) (by decide) (by decide)

/-- Counterexample to C1 as stated: for a single target the claimed
width is `max 1 ⌈log_2 1⌉ = 1`, but src/hints.rs line 21 computes
`needed = ceil(ln 1 / ln 2) = 0` with no minimum (`ln 1 = 0` exactly,
in every IEEE `f64` implementation), so the only label is the empty
string, of length `0 ≠ 1`. -/
theorem C1_label_width_counterexample :
    (generate_hints [⟨0, 0, 5, 5⟩] ['a', 'b'] 0).map Prod.fst = [String.mk []] ∧
    (String.mk []).length ≠ max 1 (Nat.clog 2 1) := by
  constructor
  · decide
  · rw [Nat.clog_one_right]; decide

theorem insertHint_keys (m : List (String × Child)) (k : String) (v : Child) :
    ∀ x ∈ (insertHint m k v).map Prod.fst, x ∈ m.map Prod.fst ∨ x = k := by
  intro x hx
  unfold insertHint at hx
  by_cases h : m.any (fun p => p.1 == k)
  · rw [if_pos h, List.map_map] at hx
    obtain ⟨p, hp, he⟩ := List.mem_map.1 hx
    by_cases hpk : p.1 == k
    · rw [show (Prod.fst ∘ fun p : String × Child =>
          if p.1 == k then (k, v) else p) p = (if p.1 == k then (k, v) else p).1
          from rfl, if_pos hpk] at he
      right; exact he.symm
    · rw [show (Prod.fst ∘ fun p : String × Child =>
          if p.1 == k then (k, v) else p) p = (if p.1 == k then (k, v) else p).1
          from rfl, if_neg hpk] at he
      left; exact he ▸ List.mem_map_of_mem Prod.fst hp
  · rw [if_neg h, List.map_append] at hx
    rcases List.mem_append.1 hx with h' | h'
    · left; exact h'
    · right; simpa using h'

theorem foldl_insert_keys (f : Nat → String) :
    ∀ (l : List (Nat × Child)) (acc : List (String × Child)),
      ∀ x ∈ (l.foldl (fun m ic => insertHint m (f ic.1) ic.2) acc).map Prod.fst,
        x ∈ acc.map Prod.fst ∨ ∃ ic ∈ l, x = f ic.1 := by

  intro l
  induction l with
  | nil => intro acc x hx; left; exact hx
  | cons ic t ih =>
    intro acc x hx
    simp only [List.foldl_cons] at hx
    rcases ih _ x hx with h | ⟨jc, hjc, he⟩
    · rcases insertHint_keys acc (f ic.1) ic.2 x h with h' | h'
      · left; exact h'
      · right; exact ⟨ic, by simp, h'⟩
    · right; exact ⟨jc, by simp [hjc], he⟩

theorem generate_hints_key_width (children : List Child) (alphabet : List Char)
    (needed : Nat) (hw : children.length ≤ alphabet.length ^ needed) :
    ∀ k ∈ (generate_hints children alphabet needed).map Prod.fst,
      k.length = needed := by
  intro k hk
  unfold generate_hints at hk
  by_cases hemp : children.isEmpty || alphabet.isEmpty
  · rw [if_pos hemp] at hk; simp at hk
  · rw [if_neg hemp] at hk
    rcases foldl_insert_keys (hintLabel alphabet needed)
        children.enum [] k hk with h | ⟨ic, hic, rfl⟩
    · simp at h
    · have hlt : ic.1 ∈ children.enum.map Prod.fst :=
        List.mem_map_of_mem Prod.fst hic
      rw [List.enum_map_fst, List.mem_range] at hlt
      exact hintLabel_length alphabet needed ic.1 (lt_of_lt_of_le hlt hw)

/-- **C8**.  In every map returned by `generate_hints` on a
realizable run — one whose computed width does not undercount the
ceiling logarithm, `N ≤ R ^ needed`, which holds of the `f64`
pipeline at every physically producible input — any two distinct keys
have the same fixed width, so neither is a strict (proper) prefix of
the other. -/
theorem C8_labels_not_strict_pre (children : List Child) (alphabet : List Char)
    (needed : Nat) (hw : children.length ≤ alphabet.length ^ needed)
    (k₁ k₂ : String)
    (h₁ : k₁ ∈ (generate_hints children alphabet needed).map Prod.fst)
    (h₂ : k₂ ∈ (generate_hints children alphabet needed).map Prod.fst)
    (hne : k₁ ≠ k₂) : ¬ strictPre k₁ k₂ := by
  rintro ⟨hne', t, ht⟩
  have hl₁ := generate_hints_key_width children alphabet needed hw k₁ h₁
  have hl₂ := generate_hints_key_width children alphabet needed hw k₂ h₂
  have hlen := congrArg List.length ht
  rw [List.length_append] at hlen
  have e₁ : k₁.data.length = k₂.data.length := by
    show k₁.length = k₂.length
    rw [hl₁, hl₂]
  have ht0 : t = [] := by
    rw [← List.length_eq_zero]
    omega
  rw [ht0, List.append_nil] at ht
  exact hne (String.ext ht)

/-- Witness for C8 on the three-target scenario (width 2): `"aa"` and
`"ab"` are both keys and neither is a strict prefix of the other. -/
theorem C8_labels_not_strict_pre_witness :
    ("aa" ∈ (generate_hints sampleChildren ['a', 'b'] 2).map Prod.fst) ∧
    ("ab" ∈ (generate_hints sampleChildren ['a', 'b'] 2).map Prod.fst) ∧
    ¬ strictPre "aa" "ab" :=
  ⟨by decide, by decide,
    C8_labels_not_strict_pre sampleChildren ['a', 'b'] 2 (by decide) "aa" "ab"
      (by decide) (by decide) (by decide)⟩

/-! ## Accessibility-tree backend (src/backends/atspi_backend.rs) -/

/-- A rectangle `(x, y, w, h)` of `i32` screen coordinates. -/
abbrev Rect := Int × Int × Int × Int

/-- The remote accessibility tree as seen through the proxy calls the
backend makes.  Nodes are identified by their object path
(`OwnedObjectPath`).  Every remote call is modelled as a total
function; a failing call is `none` (extents), an empty list
(children), or `proxyOk p = false` (`AccessibleProxy` construction
fails), matching the source's `if let Ok(..)` / `unwrap_or_default()`
handling of per-node errors.  `focused` is
`state.contains(Focused) || state.contains(Active)` and `windowish`
the window-like role test (lines 159-169). -/
structure AtspiTree where
  children : String → List String
  extents : String → Option Rect
  proxyOk : String → Bool
  focused : String → Bool
  windowish : String → Bool

/-- The sentinel path skipped explicitly by `walk_iterative`
(src/backends/atspi_backend.rs line 278). -/
def nullPath : String := "/org/a11y/atspi/null"

/-- `current_level.retain(|p| visited.insert(p.clone()))`
(src/backends/atspi_backend.rs line 267): drop the paths already in
the visited set, inserting each kept path, so a duplicate inside the
same level is dropped too.  Returns the new visited set and the kept
paths. -/
def retainFresh (visited : List String) : List String → List String × List String
  | [] => (visited, [])
  | p :: rest =>
    if p ∈ visited then retainFresh visited rest
    else
      ((retainFresh (p :: visited) rest).1,
        p :: (retainFresh (p :: visited) rest).2)

/-- The rectangle contribution (`result_child`) of one traversal task
(src/backends/atspi_backend.rs lines 273-305): the null path
contributes nothing; a node whose proxy cannot be built contributes
nothing; otherwise the node's extents are kept only when
`w > 0 && h > 0` (line 297). -/
def posRect (r : Rect) : Option Rect :=
  if 0 < r.2.2.1 ∧ 0 < r.2.2.2 then some r else none

def nodeRect (g : AtspiTree) (p : String) : Option Rect :=
  if p = nullPath then none
  else if g.proxyOk p then (g.extents p).bind posRect
  else none

/-- The children contribution (`result_children`) of the same task:
empty for the null path and when the proxy cannot be built. -/
def nodeChildren (g : AtspiTree) (p : String) : List String :=
  if p = nullPath then []
  else if g.proxyOk p then g.children p
  else []

/-- An `Int` reduced to the `i32` value it denotes in two's
complement: the wrap-around of release-mode `i32` arithmetic. -/
def wrap32 (n : Int) : Int := (n + 2 ^ 31) % 2 ^ 32 - 2 ^ 31

/-- Release-mode `i32` addition: the mathematical sum, wrapped. -/
def addWrap (a b : Int) : Int := wrap32 (a + b)

/-- The focus containment test of src/backends/atspi_backend.rs lines
314-316: `x >= fx && y >= fy && (x + w) <= (fx + fw) && (y + h) <= (fy + fh)`,
`true` when no focus region is active (`map_or(true, ..)`).  The four
comparisons compare `i32` values directly; the four additions are
`i32` `+`, which wraps in release builds, so they are modelled with
`addWrap`. -/
def insideFocus (focus : Option Rect) (r : Rect) : Bool :=
  match focus with
  | none => true
  | some f =>
    decide (f.1 ≤ r.1 ∧ f.2.1 ≤ r.2.1 ∧
      addWrap r.1 r.2.2.1 ≤ addWrap f.1 f.2.2.1 ∧
      addWrap r.2.1 r.2.2.2 ≤ addWrap f.2.1 f.2.2.2)

/-- A `Child` built from a rectangle (src/backends/atspi_backend.rs
lines 318-323). -/
def mkChild (r : Rect) : Child := ⟨r.1, r.2.1, r.2.2.1, r.2.2.2⟩

/-- The targets one filtered level contributes to `out`
(src/backends/atspi_backend.rs lines 312-325): every node whose query
produced a rectangle that passes the focus containment test. -/
def walkOut (g : AtspiTree) (focus : Option Rect) (kept : List String) : List Child :=
  kept.filterMap (fun p =>
    (nodeRect g p).bind (fun r =>
      if insideFocus focus r then some (mkChild r) else none))

/-- The next level (src/backends/atspi_backend.rs line 326): the
concatenation of all children lists of the filtered level. -/
def walkNext (g : AtspiTree) (kept : List String) : List String :=
  (kept.map (nodeChildren g)).flatten

/-- The `while !current_level.is_empty() && depth < MAX_DEPTH` loop of
`walk_iterative` (src/backends/atspi_backend.rs lines 263-328), with
the remaining permitted iterations as fuel.  Returns the collected
targets and, as instrumentation for the termination claims, the list
of expanded levels (the paths surviving the visited-set filter, level
by level). -/
def walkAux (g : AtspiTree) (focus : Option Rect) :
    Nat → List String → List String → List Child × List (List String)
  | 0, _, _ => ([], [])
  | fuel + 1, visited, level =>
    if level.isEmpty then ([], [])
    else if (retainFresh visited level).2.isEmpty then ([], [])
    else
      (walkOut g focus (retainFresh visited level).2 ++
         (walkAux g focus fuel (retainFresh visited level).1
           (walkNext g (retainFresh visited level).2)).1,
       (retainFresh visited level).2 ::
         (walkAux g focus fuel (retainFresh visited level).1
           (walkNext g (retainFresh visited level).2)).2)

/-- `MAX_DEPTH` (src/backends/atspi_backend.rs line 261). -/
def MAX_DEPTH : Nat := 50

/-- `walk_iterative` started at `start` with a fresh visited set: the
targets pushed into `out`. -/
def walk_iterative (g : AtspiTree) (start : String) (focus : Option Rect) :
    List Child :=
  (walkAux g focus MAX_DEPTH [] [start]).1

/-- The levels expanded by the same run of `walk_iterative`. -/
def walkLevels (g : AtspiTree) (start : String) (focus : Option Rect) :
    List (List String) :=
  (walkAux g focus MAX_DEPTH [] [start]).2

/-- `OverlayTarget` (src/config.rs lines 95-100). -/
inductive OverlayTarget
  | Window
  | Screen
deriving DecidableEq

/-- The first collection phase of `collect_children`
(src/backends/atspi_backend.rs lines 43-93).  The two external
resolutions are inputs: `focusRes` is the value
`find_focused_window` settles on (focused window path and extents),
`fallback` the result of the window-system geometry fallback chain
(Wayland then X11, lines 55-63).  Returns the collected targets and
the value of the `focus_extents` variable after this phase. -/
def collectPhase1 (g : AtspiTree) (root : String) (target : OverlayTarget)
    (focusRes : Option (String × Rect)) (fallback : Option Rect) :
    List Child × Option Rect :=
  match target with
  | .Window =>
    match focusRes with
    | some pr => (walk_iterative g pr.1 (some pr.2), some pr.2)
    | none =>
      match fallback with
      | some ext => (walk_iterative g root (some ext), some ext)
      | none => (walk_iterative g root none, none)
  | .Screen => (walk_iterative g root none, none)

/-- `collect_children` (src/backends/atspi_backend.rs lines 31-111):
after the phase above, if `out` is empty the walk is retried from the
root with no focus filtering (lines 95-104) — note `focus_extents`
keeps its earlier value — and zero targets after the retry is an
error (lines 106-110). -/
def collect_children (g : AtspiTree) (root : String) (target : OverlayTarget)
    (focusRes : Option (String × Rect)) (fallback : Option Rect) :
    Except String (List Child × Option Rect) :=
  if (collectPhase1 g root target focusRes fallback).1.isEmpty then
    if (walk_iterative g root none).isEmpty then
      .error "atspi backend found zero children"
    else
      .ok (walk_iterative g root none,
        (collectPhase1 g root target focusRes fallback).2)
  else
    .ok ((collectPhase1 g root target focusRes fallback).1,
      (collectPhase1 g root target focusRes fallback).2)

deriving instance DecidableEq for Except

/-- Full containment of a target in a focus rectangle, as the
specification states it (all four edge inequalities, containment when
edges coincide). -/
def insideRect (F : Rect) (c : Child) : Prop :=
  F.1 ≤ c.absolute_x ∧ F.2.1 ≤ c.absolute_y ∧
    c.absolute_x + c.width ≤ F.1 + F.2.2.1 ∧
    c.absolute_y + c.height ≤ F.2.1 + F.2.2.2

instance (F : Rect) (c : Child) : Decidable (insideRect F c) := by
  unfold insideRect; infer_instance

/-- The value is representable as an `i32`. -/
def inI32 (n : Int) : Prop := -(2 ^ 31) ≤ n ∧ n < 2 ^ 31

instance (n : Int) : Decidable (inI32 n) := by
  unfold inI32; infer_instance

/-- None of the four `i32` additions of the containment check of `F`
against `c` overflows. -/
def sumsFit (F : Rect) (c : Child) : Prop :=
  inI32 (c.absolute_x + c.width) ∧ inI32 (c.absolute_y + c.height) ∧
    inI32 (F.1 + F.2.2.1) ∧ inI32 (F.2.1 + F.2.2.2)

instance (F : Rect) (c : Child) : Decidable (sumsFit F c) := by
  unfold sumsFit; infer_instance

theorem wrap32_eq_self (n : Int) (h : inI32 n) : wrap32 n = n := by
  unfold inI32 at h
  unfold wrap32
  omega

/-! ### The visited-set filter and the depth bound (C5) -/

theorem retainFresh_spec : ∀ (level visited : List String),
    (retainFresh visited level).2.Nodup ∧
    (∀ p ∈ (retainFresh visited level).2, p ∉ visited) ∧
    (∀ p, p ∈ (retainFresh visited level).1 ↔
      p ∈ visited ∨ p ∈ (retainFresh visited level).2) := by
  intro level
  induction level with
  | nil =>
    intro visited
    exact ⟨List.nodup_nil, by simp [retainFresh], by simp [retainFresh]⟩
  | cons p rest ih =>
    intro visited
    by_cases hp : p ∈ visited
    · simpa [retainFresh, hp] using ih visited
    · obtain ⟨h1, h2, h3⟩ := ih (p :: visited)
      simp only [retainFresh, if_neg hp]
      refine ⟨?_, ?_, ?_⟩
      · exact List.nodup_cons.2
          ⟨fun hmem => (h2 p hmem) (List.mem_cons_self p visited), h1⟩
      · intro q hq
        rcases List.mem_cons.1 hq with rfl | hq'
        · exact hp
        · exact fun hqv => (h2 q hq') (List.mem_cons_of_mem p hqv)
      · intro q
        rw [h3 q]
        constructor
        · rintro (hq | hq)
          · rcases List.mem_cons.1 hq with rfl | h
            · right; exact List.mem_cons_self q _
            · left; exact h
          · right; exact List.mem_cons_of_mem p hq
        · rintro (hq | hq)
          · left; exact List.mem_cons_of_mem p hq
          · rcases List.mem_cons.1 hq with rfl | h
            · left; exact List.mem_cons_self q _
            · right; exact h

theorem walkAux_levels_spec (g : AtspiTree) (focus : Option Rect) :
    ∀ (fuel : Nat) (visited level : List String),
      ((walkAux g focus fuel visited level).2).flatten.Nodup ∧
      (∀ p ∈ ((walkAux g focus fuel visited level).2).flatten, p ∉ visited) ∧
      ((walkAux g focus fuel visited level).2).length ≤ fuel := by
  intro fuel
  induction fuel with
  | zero => intro visited level; simp [walkAux]
  | succ fuel ih =>
    intro visited level
    by_cases hl : level.isEmpty
    · simp [walkAux, hl]
    · by_cases hk : (retainFresh visited level).2.isEmpty
      · simp [walkAux, hl, hk]
      · obtain ⟨r1, r2, r3⟩ := retainFresh_spec level visited
        obtain ⟨w1, w2, w3⟩ := ih (retainFresh visited level).1
          (walkNext g (retainFresh visited level).2)
        have heq : (walkAux g focus (fuel + 1) visited level).2 =
            (retainFresh visited level).2 ::
              (walkAux g focus fuel (retainFresh visited level).1
                (walkNext g (retainFresh visited level).2)).2 := by
          simp [walkAux, hl, hk]
        rw [heq]
        refine ⟨?_, ?_, ?_⟩
        · rw [List.flatten_cons, List.nodup_append]
          refine ⟨r1, w1, ?_⟩
          intro a ha ha'
          exact (w2 a ha') ((r3 a).2 (Or.inr ha))
        · intro p hp
          rw [List.flatten_cons] at hp
          rcases List.mem_append.1 hp with h | h
          · exact r2 p h
          · exact fun hv => (w2 p h) ((r3 p).2 (Or.inl hv))
        · simp only [List.length_cons]
          omega

/-- A one-node graph whose only node lists itself as its child: the
simplest cyclic accessibility graph. -/
def cycleTree : AtspiTree where
  children := fun _ => ["A"]
  extents := fun _ => some (0, 0, 5, 5)
  proxyOk := fun _ => true
  focused := fun _ => false
  windowish := fun _ => false

/-- **C5**.  Target enumeration always terminates: `walk_iterative`
expands at most `MAX_DEPTH = 50` levels, never expands the same path
twice in a run (the visited-set filter drops already-visited paths
before expansion), and on the concrete cyclic graph `cycleTree` the
run finishes after expanding the single node exactly once. -/
theorem C5_walk_bounded_no_reexpansion :
    (∀ (g : AtspiTree) (start : String) (focus : Option Rect),
      (walkLevels g start focus).length ≤ MAX_DEPTH ∧
      (walkLevels g start focus).flatten.Nodup) ∧
    walkLevels cycleTree "A" none = [["A"]] := by
  constructor
  · intro g start focus
    obtain ⟨h1, _, h3⟩ := walkAux_levels_spec g focus MAX_DEPTH [] [start]
    exact ⟨h3, h1⟩
  · decide

/-! ### Positivity and focus containment of collected targets (C2) -/

theorem posRect_pos (r r' : Rect) (h : posRect r = some r') :
    0 < r'.2.2.1 ∧ 0 < r'.2.2.2 := by
  unfold posRect at h
  by_cases hwh : 0 < r.2.2.1 ∧ 0 < r.2.2.2
  · rw [if_pos hwh] at h
    injection h with h'
    exact h' ▸ hwh
  · rw [if_neg hwh] at h; exact Option.noConfusion h

theorem nodeRect_pos (g : AtspiTree) (p : String) (r : Rect)
    (h : nodeRect g p = some r) : 0 < r.2.2.1 ∧ 0 < r.2.2.2 := by
  unfold nodeRect at h
  by_cases h0 : p = nullPath
  · rw [if_pos h0] at h; exact Option.noConfusion h
  · rw [if_neg h0] at h
    by_cases h1 : g.proxyOk p
    · rw [if_pos h1] at h
      rw [Option.bind_eq_some] at h
      obtain ⟨r', _, hf⟩ := h
      exact posRect_pos r' r hf
    · rw [if_neg h1] at h; exact Option.noConfusion h

theorem insideFocus_insideRect (f r : Rect)
    (h : insideFocus (some f) r = true)
    (h1 : inI32 (r.1 + r.2.2.1)) (h2 : inI32 (r.2.1 + r.2.2.2))
    (h3 : inI32 (f.1 + f.2.2.1)) (h4 : inI32 (f.2.1 + f.2.2.2)) :
    insideRect f (mkChild r) := by
  have h' := of_decide_eq_true h
  refine ⟨h'.1, h'.2.1, ?_, ?_⟩
  · have hw := h'.2.2.1
    unfold addWrap at hw
    rwa [wrap32_eq_self _ h1, wrap32_eq_self _ h3] at hw
  · have hw := h'.2.2.2
    unfold addWrap at hw
    rwa [wrap32_eq_self _ h2, wrap32_eq_self _ h4] at hw

theorem walkOut_pos (g : AtspiTree) (focus : Option Rect) (kept : List String) :
    ∀ c ∈ walkOut g focus kept, 0 < c.width ∧ 0 < c.height := by
  intro c hc
  obtain ⟨p, _, he⟩ := List.mem_filterMap.1 hc
  rw [Option.bind_eq_some] at he
  obtain ⟨r, hr, hf⟩ := he
  by_cases hin : insideFocus focus r = true
  · rw [if_pos hin] at hf
    injection hf with he'
    subst he'
    exact nodeRect_pos g p r hr
  · rw [if_neg hin] at hf; exact Option.noConfusion hf

theorem walkOut_inside (g : AtspiTree) (F : Rect) (kept : List String) :
    ∀ c ∈ walkOut g (some F) kept, sumsFit F c → insideRect F c := by
  intro c hc hfit
  obtain ⟨p, _, he⟩ := List.mem_filterMap.1 hc
  rw [Option.bind_eq_some] at he
  obtain ⟨r, hr, hf⟩ := he
  by_cases hin : insideFocus (some F) r = true
  · rw [if_pos hin] at hf
    injection hf with he'
    subst he'
    exact insideFocus_insideRect F r hin hfit.1 hfit.2.1 hfit.2.2.1 hfit.2.2.2
  · rw [if_neg hin] at hf; exact Option.noConfusion hf

theorem walkAux_pos (g : AtspiTree) (focus : Option Rect) :
    ∀ (fuel : Nat) (visited level : List String),
      ∀ c ∈ (walkAux g focus fuel visited level).1,
        0 < c.width ∧ 0 < c.height := by
  intro fuel
  induction fuel with
  | zero => intro visited level c hc; simp [walkAux] at hc
  | succ fuel ih =>
    intro visited level c hc
    by_cases hl : level.isEmpty
    · simp [walkAux, hl] at hc
    · by_cases hk : (retainFresh visited level).2.isEmpty
      · simp [walkAux, hl, hk] at hc
      · have heq : (walkAux g focus (fuel + 1) visited level).1 =
            walkOut g focus (retainFresh visited level).2 ++
              (walkAux g focus fuel (retainFresh visited level).1
                (walkNext g (retainFresh visited level).2)).1 := by
          simp [walkAux, hl, hk]
        rw [heq] at hc
        rcases List.mem_append.1 hc with h | h
        · exact walkOut_pos g focus _ c h
        · exact ih _ _ c h

theorem walkAux_inside (g : AtspiTree) (F : Rect) :
    ∀ (fuel : Nat) (visited level : List String),
      ∀ c ∈ (walkAux g (some F) fuel visited level).1,
        sumsFit F c → insideRect F c := by
  intro fuel
  induction fuel with
  | zero => intro visited level c hc; simp [walkAux] at hc
  | succ fuel ih =>
    intro visited level c hc
    by_cases hl : level.isEmpty
    · simp [walkAux, hl] at hc
    · by_cases hk : (retainFresh visited level).2.isEmpty
      · simp [walkAux, hl, hk] at hc
      · have heq : (walkAux g (some F) (fuel + 1) visited level).1 =
            walkOut g (some F) (retainFresh visited level).2 ++
              (walkAux g (some F) fuel (retainFresh visited level).1
                (walkNext g (retainFresh visited level).2)).1 := by
          simp [walkAux, hl, hk]
        rw [heq] at hc
        rcases List.mem_append.1 hc with h | h
        · exact walkOut_inside g F _ c h
        · exact ih _ _ c h

theorem walk_iterative_pos (g : AtspiTree) (start : String) (focus : Option Rect) :
    ∀ c ∈ walk_iterative g start focus, 0 < c.width ∧ 0 < c.height :=
  walkAux_pos g focus MAX_DEPTH [] [start]

theorem walk_iterative_inside (g : AtspiTree) (start : String) (F : Rect) :
    ∀ c ∈ walk_iterative g start (some F), sumsFit F c → insideRect F c :=
  walkAux_inside g F MAX_DEPTH [] [start]

theorem collectPhase1_pos (g : AtspiTree) (root : String) (target : OverlayTarget)
    (focusRes : Option (String × Rect)) (fallback : Option Rect) :
    ∀ c ∈ (collectPhase1 g root target focusRes fallback).1,
      0 < c.width ∧ 0 < c.height := by
  unfold collectPhase1
  cases target with
  | Window =>
    cases focusRes with
    | some pr => exact walk_iterative_pos g pr.1 _
    | none =>
      cases fallback with
      | some ext => exact walk_iterative_pos g root _
      | none => exact walk_iterative_pos g root _
  | Screen => exact walk_iterative_pos g root _

theorem collectPhase1_scoped (g : AtspiTree) (root : String)
    (target : OverlayTarget) (focusRes : Option (String × Rect))
    (fallback : Option Rect) (F : Rect)
    (hfe : (collectPhase1 g root target focusRes fallback).2 = some F) :
    ∀ c ∈ (collectPhase1 g root target focusRes fallback).1,
      sumsFit F c → insideRect F c := by
  unfold collectPhase1 at hfe ⊢
  cases target with
  | Window =>
    cases focusRes with
    | some pr =>
      injection hfe with hfe'
      exact hfe' ▸ walk_iterative_inside g pr.1 pr.2
    | none =>
      cases fallback with
      | some ext =>
        injection hfe with hfe'
        exact hfe' ▸ walk_iterative_inside g root ext
      | none => exact Option.noConfusion hfe
  | Screen => exact Option.noConfusion hfe

theorem collect_children_ok (g : AtspiTree) (root : String)
    (target : OverlayTarget) (focusRes : Option (String × Rect))
    (fallback : Option Rect) (out : List Child) (fe : Option Rect)
    (h : collect_children g root target focusRes fallback = .ok (out, fe)) :
    fe = (collectPhase1 g root target focusRes fallback).2 ∧
    (out = (collectPhase1 g root target focusRes fallback).1 ∧ out ≠ [] ∨
      out = walk_iterative g root none ∧ out ≠ []) := by
  unfold collect_children at h
  by_cases hp : (collectPhase1 g root target focusRes fallback).1.isEmpty
  · rw [if_pos hp] at h
    by_cases hw : (walk_iterative g root none).isEmpty
    · rw [if_pos hw] at h; exact Except.noConfusion h
    · rw [if_neg hw] at h
      injection h with h'
      rw [Prod.mk.injEq] at h'
      refine ⟨h'.2.symm, Or.inr ⟨h'.1.symm, ?_⟩⟩
      intro he
      exact hw (by rw [h'.1, he]; rfl)
  · rw [if_neg hp] at h
    injection h with h'
    rw [Prod.mk.injEq] at h'
    refine ⟨h'.2.symm, Or.inl ⟨h'.1.symm, ?_⟩⟩
    intro he
    exact hp (by rw [h'.1, he]; rfl)

/-- **C2** (amended).  Every target a discovery run returns has
strictly positive width and height.  Whenever the first, focus-scoped
collection phase yields at least one target, every returned target
whose four containment additions stay within `i32` (no overflow) lies
fully inside the returned focus region (all four edge inequalities,
containment when edges coincide).  Two failure modes remain, see the
counterexample: an overflowing `i32` sum wraps, so service-supplied
extents near `i32::MAX` can pass the wrapped check and be retained
outside the region; and when the scoped phase yields zero targets the
retry walks the tree unscoped while the returned focus region keeps
its earlier value. -/
theorem C2_positive_and_scoped_amended
    (g : AtspiTree) (root : String) (target : OverlayTarget)
    (focusRes : Option (String × Rect)) (fallback : Option Rect) :
    (∀ out fe, collect_children g root target focusRes fallback = .ok (out, fe) →
      ∀ c ∈ out, 0 < c.width ∧ 0 < c.height) ∧
    ((collectPhase1 g root target focusRes fallback).1 ≠ [] →
      ∀ out F, collect_children g root target focusRes fallback = .ok (out, some F) →
        ∀ c ∈ out, sumsFit F c → insideRect F c) := by
  constructor
  · intro out fe h c hc
    obtain ⟨_, hout⟩ := collect_children_ok g root target focusRes fallback out fe h
    rcases hout with ⟨ho, _⟩ | ⟨ho, _⟩
    · rw [ho] at hc
      exact collectPhase1_pos g root target focusRes fallback c hc
    · rw [ho] at hc
      exact walk_iterative_pos g root none c hc
  · intro hne out F h c hc hfit
    obtain ⟨hfe, hout⟩ := collect_children_ok g root target focusRes fallback out _ h
    have hnonempty : ¬ (collectPhase1 g root target focusRes fallback).1.isEmpty := by
      intro hx
      exact hne (List.isEmpty_iff.1 hx)
    have hphase : out = (collectPhase1 g root target focusRes fallback).1 := by
      unfold collect_children at h
      rw [if_neg hnonempty] at h
      injection h with h'
      rw [Prod.mk.injEq] at h'
      exact h'.1.symm
    rw [hphase] at hc
    exact collectPhase1_scoped g root target focusRes fallback F hfe.symm c hc hfit

/-- A one-node graph whose node has positive extents lying outside the
focus region used in the counterexample. -/
def outsideTree : AtspiTree where
  children := fun _ => []
  extents := fun _ => some (100, 100, 5, 5)
  proxyOk := fun _ => true
  focused := fun _ => false
  windowish := fun _ => false

/-- A one-node graph whose node's extents lie near `i32::MAX`, so the
`x + w` addition of the containment check wraps. -/
def overflowTree : AtspiTree where
  children := fun _ => []
  extents := fun _ => some (2147483000, 500, 1000, 10)
  proxyOk := fun _ => true
  focused := fun _ => false
  windowish := fun _ => false

/-- Counterexample to C2 as stated, in both failure modes.  Stale
region: with focus `(0,0,10,10)` and a single node of extents
`(100,100,5,5)`, the scoped walk collects nothing, the retry collects
the node unscoped, and `collect_children` returns it with the stale
focus region although it lies outside it.  Overflow: extents
`(2147483000,500,1000,10)` against focus `(0,0,1920,1080)` pass the
wrapped `i32` check (`x + w` wraps negative), so the scoped walk
itself retains a target far outside the region. -/
theorem C2_scope_counterexample :
    (collect_children outsideTree "r" .Window (some ("r", (0, 0, 10, 10))) none =
      .ok ([⟨100, 100, 5, 5⟩], some (0, 0, 10, 10)) ∧
    ¬ insideRect (0, 0, 10, 10) ⟨100, 100, 5, 5⟩) ∧
    (collect_children overflowTree "r" .Window
        (some ("r", (0, 0, 1920, 1080))) none =
      .ok ([⟨2147483000, 500, 1000, 10⟩], some (0, 0, 1920, 1080)) ∧
    ¬ insideRect (0, 0, 1920, 1080) ⟨2147483000, 500, 1000, 10⟩) := by
  refine ⟨⟨?_, ?_⟩, ?_, ?_⟩ <;> decide

/-- A one-node graph whose node has positive extents inside the focus
region used by the witnesses. -/
def insideTree : AtspiTree where
  children := fun _ => []
  extents := fun _ => some (1, 1, 2, 2)
  proxyOk := fun _ => true
  focused := fun _ => false
  windowish := fun _ => false

/-- Witness for C2 on a concrete run: positivity and (overflow-free)
containment of the returned target. -/
theorem C2_positive_and_scoped_witness :
    (∀ c ∈ [(⟨1, 1, 2, 2⟩ : Child)], 0 < c.width ∧ 0 < c.height) ∧
    insideRect (0, 0, 10, 10) ⟨1, 1, 2, 2⟩ :=
  ⟨(C2_positive_and_scoped_amended insideTree "r" .Window
      (some ("r", (0, 0, 10, 10))) none).1 [⟨1, 1, 2, 2⟩] (some (0, 0, 10, 10))
      (by decide),
    (C2_positive_and_scoped_amended insideTree "r" .Window
      (some ("r", (0, 0, 10, 10))) none).2 (by decide) [⟨1, 1, 2, 2⟩]
      (0, 0, 10, 10) (by decide) ⟨1, 1, 2, 2⟩ (by decide) (by decide)⟩

/-- **C6**.  If the first collection phase yields zero targets,
`collect_children` retries the walk from the root with no focus
filter, and a run whose retry still yields zero targets returns an
error, never an empty success. -/
theorem C6_retry_unscoped_then_error
    (g : AtspiTree) (root : String) (target : OverlayTarget)
    (focusRes : Option (String × Rect)) (fallback : Option Rect)
    (h : (collectPhase1 g root target focusRes fallback).1 = []) :
    collect_children g root target focusRes fallback =
      (if (walk_iterative g root none).isEmpty then
        .error "atspi backend found zero children"
      else .ok (walk_iterative g root none,
        (collectPhase1 g root target focusRes fallback).2)) ∧
    (∀ out fe, collect_children g root target focusRes fallback = .ok (out, fe) →
      out ≠ []) := by
  have hemp : (collectPhase1 g root target focusRes fallback).1.isEmpty := by
    rw [h]; rfl
  constructor
  · unfold collect_children
    rw [if_pos hemp]
  · intro out fe hok
    obtain ⟨_, hout⟩ :=
      collect_children_ok g root target focusRes fallback out fe hok
    rcases hout with ⟨_, hne⟩ | ⟨_, hne⟩ <;> exact hne

/-- Witness for C6: with the out-of-focus one-node graph the scoped
phase is empty, and the run returns the unscoped retry's target. -/
theorem C6_retry_witness :
    collect_children outsideTree "r" .Window (some ("r", (0, 0, 10, 10))) none =
      (if (walk_iterative outsideTree "r" none).isEmpty then
        Except.error "atspi backend found zero children"
      else Except.ok (walk_iterative outsideTree "r" none,
        (collectPhase1 outsideTree "r" .Window
          (some ("r", (0, 0, 10, 10))) none).2)) ∧
    (∀ out fe, collect_children outsideTree "r" .Window
        (some ("r", (0, 0, 10, 10))) none = .ok (out, fe) → out ≠ []) :=
  C6_retry_unscoped_then_error outsideTree "r" .Window
    (some ("r", (0, 0, 10, 10))) none (by decide)

/-! ### Focus resolution (`find_focused_window`, C3) -/

/-- State of the `while let Some(path) = stack.pop()` loop of
`find_focused_window` (src/backends/atspi_backend.rs lines 147-203):
the explicit stack (top element first here; `Vec::pop` takes the
back, so pushing `children` is modelled by prepending their
reversal), the remembered first focused descendant (`focused_node`)
and first window (`first_window`), and — as instrumentation — the
trace of the paths the loop has expanded. -/
structure FfwState where
  stack : List String
  focusedNode : Option String
  firstWindow : Option (String × Rect)
  trace : List String
deriving DecidableEq

/-- Outcome of running the loop on bounded fuel. -/
inductive FfwResult
  | found (p : String) (r : Rect) (s : FfwState)
  | finished (s : FfwState)
  | outOfFuel (s : FfwState)
deriving DecidableEq

/-- Fuelled execution of the `find_focused_window` search loop.  Each
iteration pops the top path; a failed proxy build skips the node
(line 154); a focused window-like node is returned with its extents,
`(0,0,0,0)` when unobtainable (lines 171-182); otherwise the first
focused node and the first window with obtainable extents are
remembered (lines 184-198) and the node's children pushed on the
stack (lines 200-202).  The loop has no visited set. -/
def ffwLoop (g : AtspiTree) : Nat → FfwState → FfwResult
  | 0, s => .outOfFuel s
  | fuel + 1, s =>
    match s.stack with
    | [] => .finished s
    | p :: rest =>
      if ¬ g.proxyOk p then
        ffwLoop g fuel { s with stack := rest }
      else if g.focused p ∧ g.windowish p then
        match g.extents p with
        | some r => .found p r { s with stack := rest, trace := s.trace ++ [p] }
        | none =>
          .found p (0, 0, 0, 0) { s with stack := rest, trace := s.trace ++ [p] }
      else
        ffwLoop g fuel
          { stack := (g.children p).reverse ++ rest,
            focusedNode :=
              if g.focused p ∧ s.focusedNode = none then some p else s.focusedNode,
            firstWindow :=
              if g.windowish p ∧ s.firstWindow = none then
                (match g.extents p with
                 | some r => some (p, r)
                 | none => s.firstWindow)
              else s.firstWindow,
            trace := s.trace ++ [p] }

/-- Counterexample to C3 as stated: on the one-node cyclic graph the
search loop expands the path `"A"` twice within two iterations — the
loop has no visited set, so the same node path is expanded again. -/
theorem C3_revisit_counterexample :
    ffwLoop cycleTree 2 ⟨["A"], none, none, []⟩ =
      .outOfFuel ⟨["A"], none, none, ["A", "A"]⟩ ∧
    ¬ (["A", "A"] : List String).Nodup := by
  constructor
  · decide
  · decide

/-- **C3** (amended).  The `find_focused_window` search loop is an
iterative depth-first search over an explicit stack but has no
visited set: on a cyclic accessibility graph with no focused window
it re-expands the same path on every iteration and never terminates —
for every amount of fuel the loop is still running, having expanded
`"A"` once per iteration. -/
theorem C3_no_visited_set_nontermination :
    ∀ (n : Nat) (t : List String),
      ffwLoop cycleTree n ⟨["A"], none, none, t⟩ =
        .outOfFuel ⟨["A"], none, none, t ++ List.replicate n "A"⟩ := by
  intro n
  induction n with
  | zero => intro t; simp [ffwLoop]
  | succ n ih =>
    intro t
    have hstep : ffwLoop cycleTree (n + 1) ⟨["A"], none, none, t⟩ =
        ffwLoop cycleTree n ⟨["A"], none, none, t ++ ["A"]⟩ := rfl
    rw [hstep, ih (t ++ ["A"])]
    simp [List.replicate_succ, List.append_assoc]

/-! ## Input synthesis (src/mouse.rs) -/

/-- `MouseButton` (src/mouse.rs lines 10-15). -/
inductive MouseButton
  | Left
  | Right
  | Middle
deriving DecidableEq

/-- `MouseButtonState` (src/mouse.rs lines 17-21). -/
inductive MouseButtonState
  | Down
  | Up
deriving DecidableEq

/-- The evdev key code chosen for a button (src/mouse.rs lines
242-246): `BTN_LEFT = 0x110`, `BTN_RIGHT = 0x111`,
`BTN_MIDDLE = 0x112`. -/
def btnCode : MouseButton → Nat
  | .Left => 0x110
  | .Right => 0x111
  | .Middle => 0x112

/-- The event value emitted for a button state (src/mouse.rs lines
333-336): `Down` is 1, `Up` is 0. -/
def stateValue : MouseButtonState → Nat
  | .Down => 1
  | .Up => 0

/-- The `ydotool` attempt loop of `VirtualMouse::click`
(src/mouse.rs lines 274-321).  The outcome of each external
invocation is supplied by the oracle `env`: `env i = true` iff
attempt `i` spawns and exits successfully (a non-zero exit and a
spawn error both take the `break` arm).  Arguments: start index,
remaining iterations of `for iteration in 0..repeat`, and the current
`ydotool_worked`.  A successful attempt sets `ydotool_worked = true`
and continues; a failed attempt breaks, leaving `ydotool_worked` as
it was.  Returns the number of attempts made and the final
`ydotool_worked`. -/
def ydotoolLoop (env : Nat → Bool) : Nat → Nat → Bool → Nat × Bool
  | _, 0, w => (0, w)
  | i, r + 1, w =>
    if env i then
      ((ydotoolLoop env (i + 1) r true).1 + 1, (ydotoolLoop env (i + 1) r true).2)
    else (1, w)

/-- The raw uinput fallback events (src/mouse.rs lines 330-366): for
each of `repeat` iterations, the literal `button_states` sequence as
`(key code, value)` events on the relative-motion device. -/
def fallbackEvents (button : MouseButton) (states : List MouseButtonState)
    (rep : Nat) : List (Nat × Nat) :=
  (List.replicate rep (states.map (fun st => (btnCode button, stateValue st)))).flatten

/-- The observable effect of one `VirtualMouse::click`
(src/mouse.rs lines 211-381): the internal move to the target
position (lines 230-239), the `ydotool` attempts, and the uinput
button events, emitted only when `ydotool_worked` is still false
after the attempt loop (line 324). -/
structure ClickTrace where
  moveTo : Int × Int × Bool
  ydotoolAttempts : Nat
  ydotoolWorked : Bool
  uinputEvents : List (Nat × Nat)
deriving DecidableEq

/-- `VirtualMouse::click` as a trace over the click machinery, with
the `ydotool` outcomes supplied by `env`. -/
def click (x y : Int) (button : MouseButton) (states : List MouseButtonState)
    (rep : Nat) (absolute : Bool) (env : Nat → Bool) : ClickTrace :=
  { moveTo := (x, y, absolute),
    ydotoolAttempts := (ydotoolLoop env 0 rep false).1,
    ydotoolWorked := (ydotoolLoop env 0 rep false).2,
    uinputEvents :=
      if (ydotoolLoop env 0 rep false).2 then []
      else fallbackEvents button states rep }

theorem ydotoolLoop_worked_true (env : Nat → Bool) :
    ∀ (r i : Nat), (ydotoolLoop env i r true).2 = true := by
  intro r
  induction r with
  | zero => intro i; rfl
  | succ r ih =>
    intro i
    by_cases h : env i = true
    · simp [ydotoolLoop, h, ih]
    · simp [ydotoolLoop, h]

theorem ydotoolLoop_worked_false (env : Nat → Bool) (r i : Nat) :
    (ydotoolLoop env i r false).2 = (decide (0 < r) && env i) := by
  cases r with
  | zero => rfl
  | succ r =>
    by_cases h : env i = true
    · simp [ydotoolLoop, h, ydotoolLoop_worked_true]
    · simp [ydotoolLoop, h]

theorem ydotoolLoop_attempts_all (env : Nat → Bool) :
    ∀ (r i : Nat) (w : Bool), (∀ j, i ≤ j → j < i + r → env j = true) →
      (ydotoolLoop env i r w).1 = r := by
  intro r
  induction r with
  | zero => intro i w _; rfl
  | succ r ih =>
    intro i w h
    have h0 : env i = true := h i (le_refl i) (by omega)
    have hrec := ih (i + 1) true (fun j hj hj' => h j (by omega) (by omega))
    simp [ydotoolLoop, h0, hrec]

/-- **C4** (amended).  When the daemon executes a Click, the internal
move happens first; when every `ydotool` attempt succeeds the utility
is attempted exactly once per requested repeat; a failed attempt
abandons the remaining attempts; and the raw button-state fallback is
emitted (the literal requested sequence, once per repeat) exactly
when no attempt succeeded — that is, when the utility is unavailable
or its first attempt fails (`repeat = 0` also leaves
`ydotool_worked` false).  A failure after an earlier success abandons
the remaining attempts without any fallback. -/
theorem C4_click_escalation_amended (x y : Int) (button : MouseButton)
    (states : List MouseButtonState) (rep : Nat) (absolute : Bool)
    (env : Nat → Bool) :
    ((click x y button states rep absolute env).ydotoolWorked =
      (decide (0 < rep) && env 0)) ∧
    ((∀ i, i < rep → env i = true) →
      (click x y button states rep absolute env).ydotoolAttempts = rep) ∧
    ((click x y button states rep absolute env).uinputEvents =
      if (decide (0 < rep) && env 0) = true then []
      else fallbackEvents button states rep) ∧
    (click x y button states rep absolute env).moveTo = (x, y, absolute) := by
  refine ⟨?_, ?_, ?_, rfl⟩
  · exact ydotoolLoop_worked_false env rep 0
  · intro h
    exact ydotoolLoop_attempts_all env rep 0 false
      (fun j _ hj => h j (by omega))
  · show (if (ydotoolLoop env 0 rep false).2 then []
        else fallbackEvents button states rep) = _
    rw [ydotoolLoop_worked_false env rep 0]

/-- Witness for C4: with two always-successful attempts the utility
is attempted exactly twice and no fallback events are emitted. -/
theorem C4_click_escalation_witness :
    (click 0 0 .Left [.Down, .Up] 2 true (fun _ => true)).ydotoolAttempts = 2 ∧
    (click 0 0 .Left [.Down, .Up] 2 true (fun _ => true)).uinputEvents =
      (if (decide (0 < 2) && (fun _ : Nat => true) 0) = true then []
       else fallbackEvents .Left [.Down, .Up] 2) :=
  ⟨(C4_click_escalation_amended 0 0 .Left [.Down, .Up] 2 true (fun _ => true)).2.1
      (fun _ _ => rfl),
    (C4_click_escalation_amended 0 0 .Left [.Down, .Up] 2 true (fun _ => true)).2.2.1⟩

/-- Counterexample to C4 as stated: `repeat = 2`, first attempt
succeeds, second fails.  The loop abandons the remaining attempts but
`ydotool_worked` is already true, so no fallback events are emitted —
while the claim requires the literal button-state sequence (which is
non-empty here) to be emitted once per repeat. -/
theorem C4_fallback_counterexample :
    (click 0 0 .Left [.Down, .Up] 2 true (fun i => i == 0)).ydotoolAttempts = 2 ∧
    (click 0 0 .Left [.Down, .Up] 2 true (fun i => i == 0)).ydotoolWorked = true ∧
    (click 0 0 .Left [.Down, .Up] 2 true (fun i => i == 0)).uinputEvents = [] ∧
    fallbackEvents .Left [.Down, .Up] 2 ≠ [] := by
  refine ⟨?_, ?_, ?_, ?_⟩ <;> decide

/-! ## Command channel (src/ipc.rs, src/bin/hintsd.rs)

The wire format is bincode 1.x with its legacy default options, as
used by `bincode::serialize`/`bincode::deserialize`: fixed-width
little-endian integers, `u32` enum variant tags, `u64` sequence and
string lengths, booleans as one byte 0/1.  Bytes are modelled as
`Nat` values below 256. -/

/-- `MouseMode` (src/ipc.rs lines 7-11). -/
inductive MouseMode
  | Move
  | Scroll
deriving DecidableEq

/-- `Request` (src/ipc.rs lines 13-36).  Machine integers are carried
as unbounded `Int`/`Nat`; the round-trip theorems constrain them to
their Rust ranges (`i32`, `u16`, `u32`).  The `key` string of
`DoMouseAction` is carried as its UTF-8 byte list. -/
inductive Request
  | Move (x y : Int) (absolute : Bool)
  | Scroll (x y : Int)
  | Click (x y : Int) (button : Nat) (button_states : List Int)
      (rep : Nat) (absolute : Bool)
  | DoMouseAction (key : List Nat) (mode : MouseMode)
deriving DecidableEq

/-- `Response` (src/ipc.rs lines 38-42), the error message as its
UTF-8 byte list. -/
inductive Response
  | Ok
  | Error (msg : List Nat)
deriving DecidableEq

/-- `k` bytes of `n`, little-endian (the encoding of a fixed-width
unsigned integer; a wider value is truncated modulo `256^k`, like a
Rust `as` cast). -/
def bytesLE : Nat → Nat → List Nat
  | 0, _ => []
  | k + 1, n => n % 256 :: bytesLE k (n / 256)

/-- Read a `k`-byte little-endian unsigned integer. -/
def readLE : Nat → List Nat → Option (Nat × List Nat)
  | 0, bs => some (0, bs)
  | k + 1, bs =>
    match bs with
    | [] => none
    | b :: rest => (readLE k rest).map (fun nr => (b + 256 * nr.1, nr.2))

/-- An `i32`, encoded as its two's-complement `u32` representative,
little-endian. -/
def i32le (z : Int) : List Nat := bytesLE 4 (z % 2 ^ 32).toNat

/-- Read an `i32`: the `u32` value, reinterpreted as a signed
two's-complement integer. -/
def readI32 (bs : List Nat) : Option (Int × List Nat) :=
  (readLE 4 bs).map (fun p =>
    (if p.1 < 2 ^ 31 then (p.1 : Int) else (p.1 : Int) - 2 ^ 32, p.2))

/-- A bincode boolean: one byte, 1 for `true`, 0 for `false`. -/
def boolByte (a : Bool) : Nat := if a then 1 else 0

/-- Read a bincode boolean; any byte other than 0 or 1 is a
deserialization error. -/
def readBool (bs : List Nat) : Option (Bool × List Nat) :=
  match bs with
  | [] => none
  | b :: rest =>
    if b = 1 then some (true, rest)
    else if b = 0 then some (false, rest)
    else none

/-- Read `k` consecutive `i32` values (the elements of a
`Vec<i32>`). -/
def readI32s : Nat → List Nat → Option (List Int × List Nat)
  | 0, bs => some ([], bs)
  | k + 1, bs =>
    (readI32 bs).bind (fun zp =>
      (readI32s k zp.2).map (fun lp => (zp.1 :: lp.1, lp.2)))

/-- `bincode::serialize` of a `Request`: `u32` variant tag, then the
fields in order; `Vec<i32>` as `u64` length plus elements; `String`
as `u64` length plus UTF-8 bytes. -/
def serializeRequest : Request → List Nat
  | .Move x y a => bytesLE 4 0 ++ i32le x ++ i32le y ++ [boolByte a]
  | .Scroll x y => bytesLE 4 1 ++ i32le x ++ i32le y
  | .Click x y b sts r a =>
      bytesLE 4 2 ++ i32le x ++ i32le y ++ bytesLE 2 b ++
        bytesLE 8 sts.length ++ (sts.map i32le).flatten ++
        bytesLE 4 r ++ [boolByte a]
  | .DoMouseAction key mode =>
      bytesLE 4 3 ++ bytesLE 8 key.length ++ key ++
        bytesLE 4 (match mode with | .Move => 0 | .Scroll => 1)

/-- `bincode::serialize` of a `Response`. -/
def serializeResponse : Response → List Nat
  | .Ok => bytesLE 4 0
  | .Error msg => bytesLE 4 1 ++ bytesLE 8 msg.length ++ msg

/-- `bincode::deserialize::<Request>`: reads the variant tag and the
fields; an unknown tag is an error.  Returns the decoded request and
the unconsumed rest (the legacy options used by
`bincode::deserialize` do not reject trailing bytes). -/
def readRequest (bs : List Nat) : Option (Request × List Nat) :=
  (readLE 4 bs).bind (fun tp =>
    if tp.1 = 0 then
      (readI32 tp.2).bind (fun xp =>
        (readI32 xp.2).bind (fun yp =>
          (readBool yp.2).map (fun ap => (.Move xp.1 yp.1 ap.1, ap.2))))
    else if tp.1 = 1 then
      (readI32 tp.2).bind (fun xp =>
        (readI32 xp.2).map (fun yp => (.Scroll xp.1 yp.1, yp.2)))
    else if tp.1 = 2 then
      (readI32 tp.2).bind (fun xp =>
        (readI32 xp.2).bind (fun yp =>
          (readLE 2 yp.2).bind (fun bp =>
            (readLE 8 bp.2).bind (fun lp =>
              (readI32s lp.1 lp.2).bind (fun sp =>
                (readLE 4 sp.2).bind (fun rp =>
                  (readBool rp.2).map (fun ap =>
                    (.Click xp.1 yp.1 bp.1 sp.1 rp.1 ap.1, ap.2))))))))
    else if tp.1 = 3 then
      (readLE 8 tp.2).bind (fun lp =>
        if lp.2.length < lp.1 then none
        else
          (readLE 4 (lp.2.drop lp.1)).bind (fun mp =>
            if mp.1 = 0 then
              some (.DoMouseAction (lp.2.take lp.1) .Move, mp.2)
            else if mp.1 = 1 then
              some (.DoMouseAction (lp.2.take lp.1) .Scroll, mp.2)
            else none))
    else none)

/-- `bincode::deserialize::<Response>`. -/
def readResponse (bs : List Nat) : Option (Response × List Nat) :=
  (readLE 4 bs).bind (fun tp =>
    if tp.1 = 0 then some (.Ok, tp.2)
    else if tp.1 = 1 then
      (readLE 8 tp.2).bind (fun lp =>
        if lp.2.length < lp.1 then none
        else some (.Error (lp.2.take lp.1), lp.2.drop lp.1))
    else none)

/-- The framing the client writes for a request (src/ipc.rs lines
56-58): `(payload.len() as u32).to_le_bytes()` then the payload (a
length at or above `2^32` is truncated by the `as` cast, which
`bytesLE` reproduces). -/
def requestFrame (req : Request) : List Nat :=
  bytesLE 4 (serializeRequest req).length ++ serializeRequest req

/-- The framing the daemon writes for a response (src/bin/hintsd.rs
lines 155-157). -/
def responseFrame (resp : Response) : List Nat :=
  bytesLE 4 (serializeResponse resp).length ++ serializeResponse resp

/-- Reading one length-prefixed frame (`read_exact` of 4 bytes, then
`read_exact` of `len` bytes): fails when the stream is shorter than
the announced length. -/
def parseFrame (bs : List Nat) : Option (List Nat) :=
  (readLE 4 bs).bind (fun lp =>
    if lp.2.length < lp.1 then none else some (lp.2.take lp.1))

/-- The daemon's request parsing (src/bin/hintsd.rs lines 64-75):
one frame, deserialized as a `Request`. -/
def parseRequestFrame (bs : List Nat) : Option Request :=
  (parseFrame bs).bind (fun payload => (readRequest payload).map Prod.fst)

/-- The client's response parsing (src/ipc.rs lines 62-71): one
frame, deserialized as a `Response`. -/
def parseResponseFrame (bs : List Nat) : Option Response :=
  (parseFrame bs).bind (fun payload => (readResponse payload).map Prod.fst)

/-! ### Round-trip lemmas for the wire format -/

theorem bytesLE_length : ∀ (k n : Nat), (bytesLE k n).length = k := by
  intro k
  induction k with
  | zero => intro n; rfl
  | succ k ih => intro n; simp [bytesLE, ih]

theorem readLE_bytesLE : ∀ (k n : Nat) (rest : List Nat),
    readLE k (bytesLE k n ++ rest) = some (n % 256 ^ k, rest) := by
  intro k
  induction k with
  | zero => intro n rest; simp [readLE, bytesLE, Nat.mod_one]
  | succ k ih =>
    intro n rest
    have hsplit : n % 256 ^ (k + 1) = n % 256 + 256 * (n / 256 % 256 ^ k) := by
      rw [pow_succ']; exact Nat.mod_mul
    simp [readLE, bytesLE, ih, hsplit]

theorem readLE_bytesLE_of_lt (k n : Nat) (h : n < 256 ^ k) (rest : List Nat) :
    readLE k (bytesLE k n ++ rest) = some (n, rest) := by
  rw [readLE_bytesLE, Nat.mod_eq_of_lt h]

theorem readI32_i32le (z : Int) (h1 : -(2 ^ 31) ≤ z) (h2 : z < 2 ^ 31)
    (rest : List Nat) : readI32 (i32le z ++ rest) = some (z, rest) := by
  have e32 : (2 : Int) ^ 32 = 4294967296 := by norm_num
  have e31 : (2 : Int) ^ 31 = 2147483648 := by norm_num
  have hnn : 0 ≤ z % 2 ^ 32 := Int.emod_nonneg z (by norm_num)
  have hlt : z % 2 ^ 32 < 2 ^ 32 := Int.emod_lt_of_pos z (by norm_num)
  have hm : (z % 2 ^ 32).toNat < 256 ^ 4 := by
    have e : (256 : Nat) ^ 4 = 4294967296 := by norm_num
    omega
  unfold readI32 i32le
  rw [readLE_bytesLE_of_lt 4 _ hm rest]
  have hval : (if (z % 2 ^ 32).toNat < 2 ^ 31 then (((z % 2 ^ 32).toNat : Nat) : Int)
      else (((z % 2 ^ 32).toNat : Nat) : Int) - 2 ^ 32) = z := by
    have e31n : (2 : Nat) ^ 31 = 2147483648 := by norm_num
    split_ifs with hcase <;> omega
  rw [Option.map_some']
  dsimp only
  rw [hval]

theorem readBool_boolByte (a : Bool) (rest : List Nat) :
    readBool (boolByte a :: rest) = some (a, rest) := by
  cases a <;> rfl

theorem readI32s_map : ∀ (l : List Int),
    (∀ z ∈ l, -(2 ^ 31) ≤ z ∧ z < 2 ^ 31) →
    ∀ (rest : List Nat),
      readI32s l.length ((l.map i32le).flatten ++ rest) = some (l, rest) := by
  intro l
  induction l with
  | nil => intro _ rest; rfl
  | cons z t ih =>
    intro h rest
    have hz := h z (List.mem_cons_self z t)
    have ht := fun w hw => h w (List.mem_cons_of_mem z hw)
    simp only [List.map_cons, List.flatten_cons, List.length_cons,
      List.append_assoc]
    simp [readI32s, readI32_i32le z hz.1 hz.2, ih ht rest]

theorem parseFrame_exact (payload : List Nat) (h : payload.length < 2 ^ 32) :
    parseFrame (bytesLE 4 payload.length ++ payload) = some payload := by
  have h' : payload.length < 256 ^ 4 := by
    have e : (256 : Nat) ^ 4 = 2 ^ 32 := by norm_num
    omega
  unfold parseFrame
  rw [readLE_bytesLE_of_lt 4 payload.length h' payload]
  simp

theorem i32le_length (z : Int) : (i32le z).length = 4 := by
  simp [i32le, bytesLE_length]

theorem serializeRequest_click_length (x y : Int) (b : Nat) (sts : List Int)
    (r : Nat) (a : Bool) :
    (serializeRequest (.Click x y b sts r a)).length = 27 + 4 * sts.length := by
  simp only [serializeRequest, List.length_append, bytesLE_length, i32le_length,
    List.length_flatten, List.map_map, List.length_cons, List.length_nil]
  have hmap : (sts.map (List.length ∘ i32le)) = sts.map (fun _ => 4) := by
    apply List.map_congr_left
    intro z _
    simp [i32le, bytesLE_length]
  rw [hmap, List.map_const', List.sum_replicate]
  simp
  omega

theorem readRequest_click (x y : Int) (b : Nat) (sts : List Int)
    (r : Nat) (a : Bool)
    (hx1 : -(2 ^ 31) ≤ x) (hx2 : x < 2 ^ 31)
    (hy1 : -(2 ^ 31) ≤ y) (hy2 : y < 2 ^ 31)
    (hb : b < 2 ^ 16)
    (hsts : ∀ z ∈ sts, -(2 ^ 31) ≤ z ∧ z < 2 ^ 31)
    (hr : r < 2 ^ 32) (hsl : sts.length < 2 ^ 64) :
    readRequest (serializeRequest (.Click x y b sts r a)) =
      some (.Click x y b sts r a, []) := by
  have hb' : b < 256 ^ 2 := by
    have e : (256 : Nat) ^ 2 = 2 ^ 16 := by norm_num
    omega
  have hr' : r < 256 ^ 4 := by
    have e : (256 : Nat) ^ 4 = 2 ^ 32 := by norm_num
    omega
  have hsl' : sts.length < 256 ^ 8 := by
    have e : (256 : Nat) ^ 8 = 2 ^ 64 := by norm_num
    omega
  have e1 : serializeRequest (.Click x y b sts r a) =
      bytesLE 4 2 ++ (i32le x ++ (i32le y ++ (bytesLE 2 b ++
        (bytesLE 8 sts.length ++ ((sts.map i32le).flatten ++
          (bytesLE 4 r ++ [boolByte a])))))) := by
    simp [serializeRequest, List.append_assoc]
  rw [e1]
  simp only [readRequest, readLE_bytesLE_of_lt 4 2 (by norm_num),
    readI32_i32le x hx1 hx2, readI32_i32le y hy1 hy2,
    readLE_bytesLE_of_lt 2 b hb', readLE_bytesLE_of_lt 8 sts.length hsl',
    readI32s_map sts hsts, readLE_bytesLE_of_lt 4 r hr',
    readBool_boolByte, Option.some_bind, Option.map_some']
  simp

theorem parse_requestFrame_click (x y : Int) (b : Nat) (sts : List Int)
    (r : Nat) (a : Bool)
    (hx1 : -(2 ^ 31) ≤ x) (hx2 : x < 2 ^ 31)
    (hy1 : -(2 ^ 31) ≤ y) (hy2 : y < 2 ^ 31)
    (hb : b < 2 ^ 16)
    (hsts : ∀ z ∈ sts, -(2 ^ 31) ≤ z ∧ z < 2 ^ 31)
    (hr : r < 2 ^ 32)
    (hlen : (serializeRequest (.Click x y b sts r a)).length < 2 ^ 32) :
    parseRequestFrame (requestFrame (.Click x y b sts r a)) =
      some (.Click x y b sts r a) := by
  have hsl : sts.length < 2 ^ 64 := by
    have hlen' := hlen
    rw [serializeRequest_click_length] at hlen'
    have e2 : (2 : Nat) ^ 32 = 4294967296 := by norm_num
    have e3 : (2 : Nat) ^ 64 = 18446744073709551616 := by norm_num
    omega
  unfold parseRequestFrame requestFrame
  rw [parseFrame_exact _ hlen, Option.some_bind,
    readRequest_click x y b sts r a hx1 hx2 hy1 hy2 hb hsts hr hsl,
    Option.map_some']

theorem parse_responseFrame_ok :
    parseResponseFrame (responseFrame .Ok) = some .Ok := by decide

/-- **C7**.  Framing a Click request as a 4-byte little-endian length
followed by the bincode payload and parsing that frame on the daemon
side yields the identical request, for every Click whose fields are
in their Rust ranges; an `Ok` response framed the same way
round-trips back to the client identically. -/
theorem C7_click_frame_roundtrip (x y : Int) (b : Nat) (sts : List Int)
    (r : Nat) (a : Bool)
    (hx1 : -(2 ^ 31) ≤ x) (hx2 : x < 2 ^ 31)
    (hy1 : -(2 ^ 31) ≤ y) (hy2 : y < 2 ^ 31)
    (hb : b < 2 ^ 16)
    (hsts : ∀ z ∈ sts, -(2 ^ 31) ≤ z ∧ z < 2 ^ 31)
    (hr : r < 2 ^ 32)
    (hlen : (serializeRequest (.Click x y b sts r a)).length < 2 ^ 32) :
    parseRequestFrame (requestFrame (.Click x y b sts r a)) =
      some (.Click x y b sts r a) ∧
    parseResponseFrame (responseFrame .Ok) = some .Ok :=
  ⟨parse_requestFrame_click x y b sts r a hx1 hx2 hy1 hy2 hb hsts hr hlen,
    parse_responseFrame_ok⟩

/-- Witness for C7 at the specification's concrete request
`Click{x:100, y:200, button:0, button_states:[1,0], repeat:2, absolute:true}`. -/
theorem C7_click_frame_roundtrip_witness :
    parseRequestFrame (requestFrame (.Click 100 200 0 [1, 0] 2 true)) =
      some (.Click 100 200 0 [1, 0] 2 true) ∧
    parseResponseFrame (responseFrame .Ok) = some .Ok :=
  C7_click_frame_roundtrip 100 200 0 [1, 0] 2 true
    (by decide) (by decide) (by decide) (by decide) (by decide)
    (by decide) (by decide) (by decide)

/-! ### The daemon's interpretation of a Click request (C9) -/

/-- The calls `handle_connection` makes on the `VirtualMouse`
(src/bin/hintsd.rs lines 82-146); `DoMouseAction` is not implemented
and does nothing. -/
inductive DaemonAction
  | move (x y : Int) (absolute : Bool)
  | scroll (x y : Int)
  | click (x y : Int) (button : MouseButton)
      (states : List MouseButtonState) (rep : Nat) (absolute : Bool)
  | noop
deriving DecidableEq

/-- The button-id mapping of src/bin/hintsd.rs lines 114-118:
`2 => Right, 1 => Middle, _ => Left`. -/
def toMouseButton (b : Nat) : MouseButton :=
  if b = 2 then .Right else if b = 1 then .Middle else .Left

/-- The button-state mapping of src/bin/hintsd.rs lines 121-129:
`0 => Up`, anything else `=> Down`. -/
def toMouseButtonState (s : Int) : MouseButtonState :=
  if s = 0 then .Up else .Down

/-- The dispatch of a deserialized request
(src/bin/hintsd.rs lines 82-146). -/
def dispatch : Request → DaemonAction
  | .Move x y a => .move x y a
  | .Scroll x y => .scroll x y
  | .Click x y b sts r a =>
      .click x y (toMouseButton b) (sts.map toMouseButtonState) r a
  | .DoMouseAction _ _ => .noop

/-- `handle_connection` (src/bin/hintsd.rs lines 57-159), up to the
mouse call it makes: parse one request frame and dispatch it. -/
def handle_connection (input : List Nat) : Option DaemonAction :=
  (parseRequestFrame input).map dispatch

/-- **C9**.  For every Click request the daemon handles, button id 2
is interpreted as the right button, 1 as the middle button, and every
other id (including 0) as the left button; a `button_states` entry of
0 is button-up and every nonzero entry button-down. -/
theorem C9_button_state_mapping (x y : Int) (b : Nat) (sts : List Int)
    (r : Nat) (a : Bool)
    (hx1 : -(2 ^ 31) ≤ x) (hx2 : x < 2 ^ 31)
    (hy1 : -(2 ^ 31) ≤ y) (hy2 : y < 2 ^ 31)
    (hb : b < 2 ^ 16)
    (hsts : ∀ z ∈ sts, -(2 ^ 31) ≤ z ∧ z < 2 ^ 31)
    (hr : r < 2 ^ 32)
    (hlen : (serializeRequest (.Click x y b sts r a)).length < 2 ^ 32) :
    handle_connection (requestFrame (.Click x y b sts r a)) =
      some (.click x y
        (if b = 2 then .Right else if b = 1 then .Middle else .Left)
        (sts.map (fun s => if s = 0 then .Up else .Down)) r a) := by
  unfold handle_connection
  rw [parse_requestFrame_click x y b sts r a hx1 hx2 hy1 hy2 hb hsts hr hlen]
  rfl

/-- Witness for C9: button id 2 with states `[1, 0]` dispatches a
right-button click with `[Down, Up]`. -/
theorem C9_button_state_mapping_witness :
    handle_connection (requestFrame (.Click 100 200 2 [1, 0] 2 true)) =
      some (.click 100 200 .Right [.Down, .Up] 2 true) :=
  C9_button_state_mapping 100 200 2 [1, 0] 2 true
    (by decide) (by decide) (by decide) (by decide) (by decide)
    (by decide) (by decide) (by decide)

/-! ## Configuration loading (src/config.rs)

The configuration structures are carried field-for-field; `f32`/`f64`
fields are held as `Float` values that the claims never compute
with. -/

/-- `DEFAULT_ALPHABET` (src/consts.rs line 5). -/
def DEFAULT_ALPHABET : String := "asdfgqwertzxcvbhjklyuiopnm"

/-- `AtspiConfig` (src/config.rs lines 28-34). -/
structure AtspiConfig where
  states : List String
  roles : List String
  scale_factor : Float

/-- `OpencvConfig` (src/config.rs lines 36-41). -/
structure OpencvConfig where
  kernel_size : Int
  canny_min_val : Float
  canny_max_val : Float

/-- `BackendsConfig` (src/config.rs lines 20-26). -/
structure BackendsConfig where
  enable : List String
  atspi : AtspiConfig
  opencv : OpencvConfig

/-- `OverlayConfig` (src/config.rs lines 43-62). -/
structure OverlayConfig where
  clear_background : Bool
  background_color : Float × Float × Float × Float
  remove_background_class : Bool
  use_layer_shell : Bool
  layer_shell_namespace : String
  layer_shell_exclusive_zone : Int
  debug_overlay_enabled : Bool
  debug_overlay_color : Float × Float × Float × Float

/-- `HintsStyle` (src/config.rs lines 64-75). -/
structure HintsStyle where
  hint_height : Int
  hint_width_padding : Int
  hint_font_size : Int
  hint_font_face : String
  hint_font_color : Float × Float × Float × Float
  hint_pressed_font_color : Float × Float × Float × Float
  hint_background_color : Float × Float × Float × Float
  hint_uppercase : Bool

/-- `MouseConfig` (src/config.rs lines 77-93). -/
structure MouseConfig where
  move_left : String
  move_right : String
  move_up : String
  move_down : String
  scroll_left : String
  scroll_right : String
  scroll_up : String
  scroll_down : String
  move_pixel_sensitivity : Int
  move_rampup_time : Float
  scroll_pixel_sensitivity : Int
  scroll_rampup_time : Float
  exit_key : Nat
  hover_modifier : Nat
  grab_modifier : Nat

/-- `Config` (src/config.rs lines 5-18). -/
structure Config where
  alphabet : String
  overlay_target : OverlayTarget
  overlay_x_offset : Int
  overlay_y_offset : Int
  window_system : String
  backends : BackendsConfig
  hints : HintsStyle
  mouse : MouseConfig
  overlay : OverlayConfig

/-- `AtspiConfig::default` (src/config.rs lines 139-158). -/
def AtspiConfig.default : AtspiConfig where
  states := ["Sensitive", "Showing", "Visible"]
  roles := ["PushButton", "CheckBox", "RadioButton", "ToggleButton",
    "MenuItem", "ListItem", "Text", "Entry"]
  scale_factor := 1.0

/-- `OpencvConfig::default` (src/config.rs lines 160-167). -/
def OpencvConfig.default : OpencvConfig where
  kernel_size := 6
  canny_min_val := 100.0
  canny_max_val := 200.0

/-- `BackendsConfig::default` (src/config.rs lines 130-137). -/
def BackendsConfig.default : BackendsConfig where
  enable := ["atspi", "opencv"]
  atspi := AtspiConfig.default
  opencv := OpencvConfig.default

/-- `OverlayConfig::default` (src/config.rs lines 169-180). -/
def OverlayConfig.default : OverlayConfig where
  clear_background := true
  background_color := (0.0, 0.0, 0.0, 0.0)
  remove_background_class := true
  use_layer_shell := true
  layer_shell_namespace := "hints"
  layer_shell_exclusive_zone := -1
  debug_overlay_enabled := false
  debug_overlay_color := (1.0, 0.0, 1.0, 0.2)

/-- `HintsStyle::default` (src/config.rs lines 182-194). -/
def HintsStyle.default : HintsStyle where
  hint_height := 30
  hint_width_padding := 10
  hint_font_size := 15
  hint_font_face := "Sans"
  hint_font_color := (0.0, 0.0, 0.0, 1.0)
  hint_pressed_font_color := (0.7, 0.7, 0.4, 1.0)
  hint_background_color := (1.0, 1.0, 0.5, 0.8)
  hint_uppercase := true

/-- `MouseConfig::default` (src/config.rs lines 196-215). -/
def MouseConfig.default : MouseConfig where
  move_left := "h"
  move_right := "l"
  move_up := "k"
  move_down := "j"
  scroll_left := "h"
  scroll_right := "l"
  scroll_up := "k"
  scroll_down := "j"
  move_pixel_sensitivity := 10
  move_rampup_time := 0.5
  scroll_pixel_sensitivity := 5
  scroll_rampup_time := 0.5
  exit_key := 65307
  hover_modifier := 4
  grab_modifier := 8

/-- `Config::default` (src/config.rs lines 113-127). -/
def Config.default : Config where
  alphabet := DEFAULT_ALPHABET
  overlay_target := OverlayTarget.Window
  overlay_x_offset := 0
  overlay_y_offset := 0
  window_system := ""
  backends := BackendsConfig.default
  hints := HintsStyle.default
  mouse := MouseConfig.default
  overlay := OverlayConfig.default

/-- `Config::load` (src/config.rs lines 218-227).  The filesystem read
`fs::read_to_string(path)` is abstracted as `readResult` (`none` for
any read error, an absent file included) and `serde_json::from_str`
as the external `parse` function (`none` for a parse failure);
`unwrap_or_default()` is `Option.getD Config.default`. -/
def Config.load (readResult : Option String)
    (parse : String → Option Config) : Config :=
  match readResult with
  | some contents => (parse contents).getD Config.default
  | none => Config.default

/-- **C10**.  `Config::load` is total: when the file cannot be read it
returns exactly the built-in default configuration; when the contents
fail to parse it returns exactly the default (never an error, never a
partially-applied parse); and when the contents parse it returns the
parsed configuration. -/
theorem C10_config_load_total (readResult : Option String)
    (parse : String → Option Config) :
    (readResult = none → Config.load readResult parse = Config.default) ∧
    (∀ s, readResult = some s → parse s = none →
      Config.load readResult parse = Config.default) ∧
    (∀ s c, readResult = some s → parse s = some c →
      Config.load readResult parse = c) := by
  refine ⟨?_, ?_, ?_⟩
  · intro h; rw [h]; rfl
  · intro s hs hp; rw [hs]; simp [Config.load, hp]
  · intro s c hs hp; rw [hs]; simp [Config.load, hp]

/-- Witness for C10: an absent file and an unparsable file both yield
exactly the default configuration. -/
theorem C10_config_load_witness :
    Config.load none (fun _ => none) = Config.default ∧
    Config.load (some "not json") (fun _ => none) = Config.default :=
  ⟨(C10_config_load_total none (fun _ => none)).1 rfl,
    (C10_config_load_total (some "not json") (fun _ => none)).2.1
      "not json" rfl rfl⟩

end HyprVimx
